import Mathlib

/-!
Verification development for the hw-app-nano Ledger client library.

The definitions below are a shallow embedding of the library's core:
the address/balance codec (`src/util.js`), the block-descriptor
classifier and command-frame builders (`src/api.js`), and the device
session façade (`BaseAPI` in `src/api.js`).

Conventions of the embedding:
* JavaScript arbitrary-precision integers (the `big-integer` package)
  are modelled as `Nat`; `big-integer` is modelled on plain decimal /
  hexadecimal numerals, which is the only region any theorem touches
  (on other inputs `big-integer` throws, modelled as `Option.none` /
  `Except.error`).
* Node `Buffer`s are `List Nat` (each entry a byte value).
* Functions that can throw return `Except String _`.
* Strings are processed through their character lists (`String.data`),
  which matches the JavaScript character-by-character semantics on the
  ASCII inputs this protocol deals in.
-/

namespace HwAppNano

/-! ## Digit machinery (model of big-integer's radix conversions) -/

/-- Value of a hexadecimal digit character; `0` for non-hex characters
(callers guard with `isHexChar`). Accepts both cases, as `big-integer`
and Node's hex decoding do. -/
def hexCharVal (c : Char) : Nat :=
  if '0' ≤ c ∧ c ≤ '9' then c.toNat - 48
  else if 'a' ≤ c ∧ c ≤ 'f' then c.toNat - 87
  else if 'A' ≤ c ∧ c ≤ 'F' then c.toNat - 55
  else 0

/-- Is `c` a hexadecimal digit (either case)? -/
def isHexChar (c : Char) : Bool :=
  ('0' ≤ c && c ≤ '9') || ('a' ≤ c && c ≤ 'f') || ('A' ≤ c && c ≤ 'F')

/-- Lowercase hexadecimal digit character for `d < 16`, as produced by
`bigInt.toString(16)`. -/
def hexDigitChar (d : Nat) : Char :=
  if d < 10 then Char.ofNat (48 + d) else Char.ofNat (87 + d)

/-- Decimal digit character for `d < 10`. -/
def decDigitChar (d : Nat) : Char :=
  Char.ofNat (48 + d)

/-- Big-endian digit list of `n` in base `b`, with `fuel` bounding the
recursion depth (`n ≤ fuel` in every use). Empty for `n = 0`. -/
def digitsBEAux (b : Nat) : Nat → Nat → List Nat
  | 0, _ => []
  | fuel + 1, n => if n = 0 then [] else digitsBEAux b fuel (n / b) ++ [n % b]

/-- Big-endian digit list of `n` in base `b`; empty for `n = 0`. -/
def digitsBE (b n : Nat) : List Nat :=
  digitsBEAux b n n

/-- Value of a big-endian digit list in base `b`. -/
def ofBaseBE (b : Nat) (l : List Nat) : Nat :=
  l.foldl (fun a d => b * a + d) 0

/-- Model of `bigInt(value, 10)` on its plain-numeral domain: `some`
of the value when `value` is a nonempty string of decimal digits,
`none` (a throw) otherwise. -/
def bigIntParse10 (value : String) : Option Nat :=
  if !value.data.isEmpty && value.data.all Char.isDigit then
    some (ofBaseBE 10 (value.data.map fun c => c.toNat - 48))
  else none

/-- Model of `bigInt(value, 16)` on its plain-numeral domain. -/
def bigIntParse16 (value : String) : Option Nat :=
  if !value.data.isEmpty && value.data.all isHexChar then
    some (ofBaseBE 16 (value.data.map hexCharVal))
  else none

/-- Model of `bigInt.toString(16)`: lowercase hex rendering, `"0"` for
zero, no leading zeros. -/
def natToHexStr (n : Nat) : String :=
  if n = 0 then "0" else String.mk ((digitsBE 16 n).map hexDigitChar)

/-- Model of `bigInt.toString()`: decimal rendering, `"0"` for zero,
no leading zeros. -/
def natToDecStr (n : Nat) : String :=
  if n = 0 then "0" else String.mk ((digitsBE 10 n).map decDigitChar)

/-! ## Balance codec (`src/util.js`) -/

/-- Mirrors `encodeBalance` of `src/util.js`: parse the value as a
base-10 big integer, render base-16, left-pad with `'0'` to 32
characters when shorter. An unparsable value is a thrown error. -/
def encodeBalance (value : String) : Except String String :=
  match bigIntParse10 value with
  | none => Except.error "Invalid integer"
  | some n =>
    let v := natToHexStr n
    if v.length < 32 then
      Except.ok (String.mk (List.replicate (32 - v.length) '0') ++ v)
    else Except.ok v

/-- Mirrors `decodeBalance` of `src/util.js`: parse base-16, render
base-10. -/
def decodeBalance (value : String) : Except String String :=
  match bigIntParse16 value with
  | none => Except.error "Invalid integer"
  | some n => Except.ok (natToDecStr n)

/-- The numeric value of a decimal digit string. -/
def decValue (v : String) : Nat :=
  ofBaseBE 10 (v.data.map fun c => c.toNat - 48)

/-! ## Address codec (`decodeAddress` of `src/util.js`) -/

/-- The 32-symbol alphabet of the external `nano-base32` package
(digits `0, 2` and letters `l, v` are excluded). -/
def nanoAlphabet : List Char := "13456789abcdefghijkmnopqrstuwxyz".data

/-- Index of `c` in an alphabet list; `none` when absent. Models
`alphabet.indexOf(char)` inside `nano-base32`'s `readChar` (which
throws on `-1`). -/
def alphaIdx (c : Char) : List Char → Option Nat
  | [] => none
  | a :: rest => if a = c then some 0 else (alphaIdx c rest).map (· + 1)

/-- State of the `nano-base32` decode loop: the JS 32-bit accumulator
(`value`, kept reduced mod `2 ^ 32` to model JS bitwise coercion), the
pending bit count and the bytes emitted so far. -/
structure B32State where
  value : Nat
  bits : Nat
  out : List Nat

/-- One iteration of the `nano-base32` decode loop body for a character
of index `idx`: shift five bits in, and emit a byte once at least eight
bits are pending. -/
def b32Step (offset : Nat) (st : B32State) (idx : Nat) : B32State :=
  let value := (st.value * 32) % 4294967296 + idx
  let bits := st.bits + 5
  if 8 ≤ bits then
    { value := value, bits := bits - 8,
      out := st.out ++ [value / 2 ^ (bits + offset - 8) % 256] }
  else
    { value := value, bits := bits, out := st.out }

/-- Model of the external `nano-base32` package's `decode`: repack
5-bit groups into bytes (with the leading `offset` padding bits
discarded via the final `slice(1)`), throwing on any character outside
the alphabet. -/
def nanoBase32Decode (input : List Char) : Except String (List Nat) := do
  let leftover := (input.length * 5) % 8
  let offset := if leftover = 0 then 0 else 8 - leftover
  let final ← input.foldlM (fun st c =>
    match alphaIdx c nanoAlphabet with
    | none => Except.error ("Invalid character found: " ++ String.mk [c])
    | some idx => Except.ok (b32Step offset st idx)) ⟨0, 0, []⟩
  let out := if 0 < final.bits then
      final.out ++ [final.value * 2 ^ (final.bits + offset - 8) % 256]
    else final.out
  return if leftover ≠ 0 then out.drop 1 else out

/-- The character class `[0-9a-km-uw-z]` of the validation regex in
`decodeAddress`. (Note it is wider than `nanoAlphabet`: it also admits
`'0'` and `'2'`.) -/
def regexBodyChar (c : Char) : Bool :=
  ('0' ≤ c && c ≤ '9') || ('a' ≤ c && c ≤ 'k') ||
    ('m' ≤ c && c ≤ 'u') || ('w' ≤ c && c ≤ 'z')

/-- Does `[13][0-9a-km-uw-z]{59}` match starting at the head of `s`? -/
def regexMatchAtHead (s : List Char) : Bool :=
  match s with
  | [] => false
  | c :: rest =>
    (c == '1' || c == '3') && decide (59 ≤ rest.length) &&
      (rest.take 59).all regexBodyChar

/-- JS `RegExp.test` for the (unanchored) pattern
`/[13][0-9a-km-uw-z]{59}/`: true when the pattern matches at some
position of the string. -/
def regexSearch : List Char → Bool
  | [] => false
  | c :: rest => regexMatchAtHead (c :: rest) || regexSearch rest

/-- JS `String.startsWith` on character lists. -/
def listStartsWith : List Char → List Char → Bool
  | _, [] => true
  | [], _ :: _ => false
  | c :: cs, p :: ps => c == p && listStartsWith cs ps

/-- The prefix-stripping loop at the top of `decodeAddress`: drop the
first matching entry of `allowedPrefixes` (then `break`); leave the
address unchanged when none matches. -/
def stripMatchedPre (addr : List Char) : List String → List Char
  | [] => addr
  | p :: rest =>
    if listStartsWith addr p.data then addr.drop p.data.length
    else stripMatchedPre addr rest

/-- Mirrors `decodeAddress` of `src/util.js`. The 5-byte digest
primitive (`blake2b(publicKey, null, 5)` from the external blakejs
package) is passed as the parameter `h5`; the external base-32
primitive is `nanoBase32Decode` above. `ok none` models a `null`
return; `error` models an exception propagating out (the source has no
try/catch around `nanoBase32.decode`). -/
def decodeAddress (h5 : List Nat → List Nat) (address : String)
    (allowedPrefixes : List String) : Except String (Option (List Nat)) :=
  let addr := stripMatchedPre address.data allowedPrefixes
  if !regexSearch addr then Except.ok none
  else match nanoBase32Decode addr with
  | Except.error e => Except.error e
  | Except.ok bytes =>
    let publicKey := bytes.take 32
    let checksum := bytes.drop 32
    let computedChecksum := (h5 publicKey).reverse
    if checksum.length ≠ computedChecksum.length then Except.ok none
    -- the element-by-element comparison loop, given equal lengths
    else if checksum ≠ computedChecksum then Except.ok none
    else Except.ok (some publicKey)

/-! ## Block descriptor classifier (`processBlockData` of `src/api.js`) -/

/-- Mirrors the `CoinConfig` record of `src/api.js`. -/
structure CoinConfig where
  coinName : String
  addressPrimaryPrefix : String
  addressSecondaryPrefix : String

/-- Mirrors `addressPrefixes` of `src/api.js`. -/
def addressPrefixes (coin : CoinConfig) : List String :=
  [coin.addressPrimaryPrefix, coin.addressSecondaryPrefix]

/-- Mirrors `badAddressReason` of `src/api.js`. -/
def badAddressReason (c : CoinConfig) (field : String) : String :=
  let addrLen := 60
  let pre1 := c.addressPrimaryPrefix
  let pre2 := c.addressSecondaryPrefix
  let msg := if pre1 = pre2 then
      "must be a " ++ Nat.repr (addrLen + pre1.length) ++ " character "
        ++ pre1 ++ " address"
    else
      "must be either a " ++ Nat.repr (addrLen + pre1.length) ++ " character "
        ++ pre1 ++ " address " ++ "or a " ++ Nat.repr (addrLen + pre2.length)
        ++ " character " ++ pre2 ++ " address"
  "`" ++ field ++ "` " ++ msg

/-- The `BlockData` descriptor of `src/api.js`: optional fields are
`Option String`. -/
structure BlockData where
  previousBlock : Option String
  representative : String
  balance : String
  sourceBlock : Option String
  recipient : Option String

/-- JS truthiness of an optional string field: `undefined`, `null` and
`""` are falsy. -/
def truthy : Option String → Bool
  | none => false
  | some s => !s.data.isEmpty

/-- Model of `/[0-9]+/.test(s)`: the regex is unanchored, so the test
passes exactly when `s` contains at least one decimal digit. -/
def containsDigit (s : String) : Bool := s.data.any Char.isDigit

/-- Mirrors `processBlockData` of `src/api.js` (the shared classifier
used by `signBlock` and `cacheBlock`). -/
def processBlockData (h5 : List Nat → List Nat) (c : CoinConfig) (b : BlockData) :
    Except String (List Nat × Option (List Nat)) :=
  if truthy b.previousBlock && ((b.previousBlock.getD "").length != 64) then
    Except.error "`previousBlock` must be a 64 character hex string"
  else match decodeAddress h5 b.representative (addressPrefixes c) with
  | Except.error e => Except.error e
  | Except.ok none => Except.error (badAddressReason c "representative")
  | Except.ok (some representativePublicKey) =>
    if !containsDigit b.balance then Except.error "`balance` must be a number"
    else if truthy b.sourceBlock && ((b.sourceBlock.getD "").length != 64) then
      Except.error "`sourceBlock` must be a 64 character hex string"
    else match (if truthy b.recipient
        then decodeAddress h5 (b.recipient.getD "") (addressPrefixes c)
        else Except.ok none) with
    | Except.error e => Except.error e
    | Except.ok recipientPublicKey =>
      if truthy b.recipient && recipientPublicKey.isNone then
        Except.error (badAddressReason c "recipient")
      else
        let isOpenBlock :=
          !truthy b.previousBlock && truthy b.sourceBlock && !truthy b.recipient
        let isReceiveBlock :=
          truthy b.previousBlock && truthy b.sourceBlock && !truthy b.recipient
        let isSendBlock :=
          truthy b.previousBlock && !truthy b.sourceBlock && truthy b.recipient
        let isChangeBlock :=
          truthy b.previousBlock && !truthy b.sourceBlock && !truthy b.recipient
        if !isOpenBlock && !isReceiveBlock && !isSendBlock && !isChangeBlock then
          Except.error "`blockData` optional field configuration is unsupported"
        else Except.ok (representativePublicKey, recipientPublicKey)

/-- A stand-in for the external 5-byte blake2b digest, used to build
concrete witnesses (any function of this type instantiates the `h5`
parameter). -/
def dummyHash5 : List Nat → List Nat := fun _ => List.replicate 5 0

/-- The Banano coin configuration from `src/Banano.js` (a single-prefix
coin), used for concrete witnesses. -/
def testCoin : CoinConfig :=
  { coinName := "Banano", addressPrimaryPrefix := "ban_",
    addressSecondaryPrefix := "ban_" }

/-- A 60-character all-`'1'` address body: in the alphabet, matches the
regex, decodes to 37 zero bytes, so its checksum (5 zero bytes) agrees
with `dummyHash5` and it decodes to the all-zero public key. -/
def addrOnes : String :=
  "111111111111111111111111111111111111111111111111111111111111"

/-- A concrete open-shape block descriptor used by witnesses. -/
def openBlockData : BlockData :=
  { previousBlock := none, representative := addrOnes, balance := "7",
    sourceBlock := some
      "0000000000000000000000000000000000000000000000000000000000000000",
    recipient := none }

/-- A 128-character string of `'z'` (the right length for a signature,
but not hexadecimal). -/
def zSig128 : String := String.mk (List.replicate 128 'z')

/-! ## Command frames (`signBlock` / `cacheBlock` of `src/api.js`) -/

/-- A command frame as handed to `transport.send(cla, ins, p1, p2, buf)`:
the four header bytes and the request payload. -/
structure APDU where
  cla : Nat
  ins : Nat
  p1 : Nat
  p2 : Nat
  payload : List Nat

/-- Node `buffer.write` / `Buffer.copy` semantics on a fixed-size
buffer: overwrite bytes starting at `ptr`, truncated to the remaining
room, returning the new buffer and the number of bytes written. -/
def writeBytes (buf : List Nat) (ptr : Nat) (bs : List Nat) : List Nat × Nat :=
  let n := min bs.length (buf.length - ptr)
  (buf.take ptr ++ bs.take n ++ buf.drop (ptr + n), n)

/-- Big-endian 4-byte encoding of a 32-bit integer
(`buffer.writeUInt32BE`; segments are below `2 ^ 32`, as `writeUInt32BE`
rejects larger values). -/
def be32 (x : Nat) : List Nat :=
  [x / 2 ^ 24 % 256, x / 2 ^ 16 % 256, x / 2 ^ 8 % 256, x % 256]

/-- Node hex decoding of a string into bytes, pairwise, stopping at the
first non-hex pair or odd tail (the string decoding performed by
`buffer.write(s, ptr, len, "hex")`). -/
def hexPairs : List Char → List Nat
  | c1 :: c2 :: rest =>
    if isHexChar c1 && isHexChar c2 then
      (16 * hexCharVal c1 + hexCharVal c2) :: hexPairs rest
    else []
  | _ => []

/-- The path-segment loop shared by all frame builders:
`bipPath.forEach(segment => { buf.writeUInt32BE(segment, ptr); ptr += 4 })`
over a (buffer, pointer) state. -/
def writePathSegments (bipPath : List Nat) (st : List Nat × Nat) : List Nat × Nat :=
  bipPath.foldl (fun st seg => ((writeBytes st.1 st.2 (be32 seg)).1, st.2 + 4)) st

/-- `buf.writeUInt8(n, ptr); ptr += 1` (Node rejects `n > 255`; every
theorem that writes a path length assumes it is at most 255). -/
def writeU8Field (n : Nat) (st : List Nat × Nat) : List Nat × Nat :=
  ((writeBytes st.1 st.2 [n]).1, st.2 + 1)

/-- `ptr += buf.write(s, ptr, buf.length - ptr, "hex")`: hex-decode the
string, cap at the remaining room, advance by the count written. -/
def writeHexField (s : String) (st : List Nat × Nat) : List Nat × Nat :=
  let r := writeBytes st.1 st.2 ((hexPairs s.data).take (st.1.length - st.2))
  (r.1, st.2 + r.2)

/-- `ptr += someBuffer.copy(buf, ptr)`: copy raw bytes, advance by the
count written. -/
def writeRawField (bs : List Nat) (st : List Nat × Nat) : List Nat × Nat :=
  let r := writeBytes st.1 st.2 bs
  (r.1, st.2 + r.2)

/-- `ptr += 32` with no write (the zero-filled field of a freshly
allocated buffer). -/
def skipField (st : List Nat × Nat) : List Nat × Nat :=
  (st.1, st.2 + 32)

/-- The block-field write sequence that `signBlock` and `cacheBlock`
share verbatim: previousBlock-or-skip-32, sourceBlock / recipient key /
skip-32, representative key, balance. -/
def writeBlockFields (b : BlockData) (recipientPublicKey : Option (List Nat))
    (representativePublicKey : List Nat) (balanceHex : String)
    (st : List Nat × Nat) : List Nat × Nat :=
  let st :=
    if truthy b.previousBlock then writeHexField (b.previousBlock.getD "") st
    else skipField st
  let st :=
    if truthy b.sourceBlock then writeHexField (b.sourceBlock.getD "") st
    else match recipientPublicKey with
      | some pk => writeRawField pk st
      | none => skipField st
  let st := writeRawField representativePublicKey st
  writeHexField balanceHex st

/-- The 32 bytes of the previousBlock slot as §4.3 of the spec
describes them: the hex-decoded hash, or all zero when absent. -/
def prevBytes (b : BlockData) : List Nat :=
  match b.previousBlock with
  | some s => hexPairs s.data
  | none => List.replicate 32 0

/-- The 32 bytes of the second slot as §4.3 of the spec describes them:
the hex-decoded sourceBlock if present, else the decoded recipient
public key if one was supplied, else all zero. -/
def slot2 (b : BlockData) (recipientPublicKey : Option (List Nat)) : List Nat :=
  match b.sourceBlock with
  | some s => hexPairs s.data
  | none =>
    match recipientPublicKey with
    | some pk => pk
    | none => List.replicate 32 0

/-- Mirrors the request-building part of `signBlock` of `src/api.js`.
The transport exchange and response parsing are outside the model; the
BIP-32 path is taken already parsed into segments (the external
`bip32-path` package produces them). `encodeBalance`, which the source
invokes mid-sequence (and whose exception would abort the build before
any send), is bound up front; this is observationally identical. -/
def signBlockRequest (h5 : List Nat → List Nat) (coin : CoinConfig)
    (bipPath : List Nat) (b : BlockData) : Except String APDU :=
  match processBlockData h5 coin b with
  | Except.error e => Except.error e
  | Except.ok (representativePublicKey, recipientPublicKey) =>
    let p2 : Nat :=
      if coin.addressPrimaryPrefix ≠ coin.addressSecondaryPrefix then
        (if truthy b.recipient && listStartsWith (b.recipient.getD "").data
              coin.addressSecondaryPrefix.data then 1 else 0)
          ||| (if listStartsWith b.representative.data
              coin.addressSecondaryPrefix.data then 2 else 0)
      else 0
    match encodeBalance b.balance with
    | Except.error e => Except.error e
    | Except.ok balanceHex =>
      let size := 1 + 4 * bipPath.length + 32 + 32 + 32 + 16
      let st0 : List Nat × Nat := (List.replicate size 0, 0)
      let st1 := writeU8Field bipPath.length st0
      let st2 := writePathSegments bipPath st1
      let st3 := writeBlockFields b recipientPublicKey representativePublicKey
        balanceHex st2
      Except.ok ⟨0xa1, 0x04, 0x00, p2, st3.1⟩

/-- Mirrors the request-building part of `cacheBlock` of `src/api.js`:
the classifier runs first, then the signature length check, then the
frame is built (same fields as the Sign frame, with `p2 = 0`, plus the
trailing hex-decoded signature). An `error` result models a synchronous
throw: no frame exists and nothing reaches the transport. -/
def cacheBlockRequest (h5 : List Nat → List Nat) (coin : CoinConfig)
    (bipPath : List Nat) (b : BlockData) (signature : String) :
    Except String APDU :=
  match processBlockData h5 coin b with
  | Except.error e => Except.error e
  | Except.ok (representativePublicKey, recipientPublicKey) =>
    if signature.length != 128 then
      Except.error "`signature` must be a 128 character hex string"
    else match encodeBalance b.balance with
    | Except.error e => Except.error e
    | Except.ok balanceHex =>
      let size := 1 + 4 * bipPath.length + 32 + 32 + 32 + 16 + 64
      let st0 : List Nat × Nat := (List.replicate size 0, 0)
      let st1 := writeU8Field bipPath.length st0
      let st2 := writePathSegments bipPath st1
      let st3 := writeBlockFields b recipientPublicKey representativePublicKey
        balanceHex st2
      let st4 := writeHexField signature st3
      Except.ok ⟨0xa1, 0x03, 0x00, 0x00, st4.1⟩

/-! ## App configuration and device session (`src/api.js`) -/

/-- The parsed app-configuration response. -/
structure AppConfig where
  version : String
  coinName : String

/-- ASCII decoding of bytes (`buf.toString("ascii")`; Node masks each
byte to 7 bits). -/
def asciiDecode (bs : List Nat) : String :=
  String.mk (bs.map fun b => Char.ofNat (b % 128))

/-- Mirrors the response parsing of `getAppConfiguration` of
`src/api.js`: three one-byte version components; then, when more bytes
follow, a one-byte length-prefixed ASCII coin name (read as
`buf.slice(ptr - len, ptr)`, which Node clamps to the buffer end);
when the response ends after the version and the version is exactly
1.0.0, the implicit legacy name "Nano"; otherwise the initial empty
string stands. A response shorter than three bytes makes `readUInt8`
throw a range error. -/
def parseAppConfiguration (buf : List Nat) : Except String AppConfig :=
  if buf.length < 3 then
    Except.error "Attempt to access memory outside buffer bounds"
  else
    let versionMajor := buf.getD 0 0
    let versionMinor := buf.getD 1 0
    let versionPatch := buf.getD 2 0
    let coinName :=
      if 3 < buf.length then
        let coinNameLength := buf.getD 3 0
        asciiDecode ((buf.drop 4).take coinNameLength)
      else if versionMajor = 1 ∧ versionMinor = 0 ∧ versionPatch = 0 then
        "Nano"
      else ""
    Except.ok
      { version := Nat.repr versionMajor ++ "." ++ Nat.repr versionMinor
          ++ "." ++ Nat.repr versionPatch,
        coinName := coinName }

/-- The Device Session state of `BaseAPI` of `src/api.js`: the coin
configuration and the `_appCoin` field (absent until the first
app-configuration query). The transport handle and the constructor's
scramble-key side effect are outside the model. -/
structure BaseAPI where
  coin : CoinConfig
  appCoin : Option String

/-- The `BaseAPI` constructor: `_appCoin` starts unset. -/
def mkBaseAPI (coin : CoinConfig) : BaseAPI :=
  { coin := coin, appCoin := none }

/-- Mirrors `BaseAPI._assertCorrectCoin`: throws exactly when a
recorded app coin exists (`typeof appCoin === "string"`) and differs
from the configured coin's name. -/
def assertCorrectCoin (api : BaseAPI) : Except String Unit :=
  match api.appCoin with
  | some appCoin =>
    if appCoin ≠ api.coin.coinName then
      Except.error ("Expected " ++ api.coin.coinName ++ " app to be open, "
        ++ "found " ++ appCoin ++ " app open instead")
    else Except.ok ()
  | none => Except.ok ()

/-- Mirrors `BaseAPI.getAppConfiguration`, given the device's response
bytes: parse the response, record its coin name as the session's
AppIdentity, and return the configuration. -/
def sessionGetAppConfiguration (api : BaseAPI) (responseBuf : List Nat) :
    Except String (BaseAPI × AppConfig) :=
  match parseAppConfiguration responseBuf with
  | Except.error e => Except.error e
  | Except.ok appConf =>
    Except.ok ({ api with appCoin := some appConf.coinName }, appConf)

/-! ## Digit lemmas -/

theorem ofBaseBE_append_digit (b : Nat) (l : List Nat) (d : Nat) :
    ofBaseBE b (l ++ [d]) = b * ofBaseBE b l + d := by
  simp [ofBaseBE, List.foldl_append]

theorem digitsBEAux_zero (b : Nat) (fuel : Nat) : digitsBEAux b fuel 0 = [] := by
  cases fuel <;> simp [digitsBEAux]

theorem digitsBEAux_ofBase (b : Nat) (hb : 2 ≤ b) :
    ∀ fuel n, n ≤ fuel → ofBaseBE b (digitsBEAux b fuel n) = n := by
  intro fuel
  induction fuel with
  | zero =>
    intro n hn
    interval_cases n
    simp [digitsBEAux, ofBaseBE]
  | succ fuel ih =>
    intro n hn
    by_cases h0 : n = 0
    · subst h0; simp [digitsBEAux, ofBaseBE]
    · have hlt : n / b < n := Nat.div_lt_self (Nat.pos_of_ne_zero h0) (by omega)
      simp only [digitsBEAux, if_neg h0]
      rw [ofBaseBE_append_digit, ih _ (by omega)]
      exact Nat.div_add_mod n b

theorem digitsBEAux_lt (b : Nat) (hb : 0 < b) :
    ∀ fuel n d, d ∈ digitsBEAux b fuel n → d < b := by
  intro fuel
  induction fuel with
  | zero => intro n d hd; simp [digitsBEAux] at hd
  | succ fuel ih =>
    intro n d hd
    by_cases h0 : n = 0
    · subst h0; simp [digitsBEAux] at hd
    · simp only [digitsBEAux, if_neg h0, List.mem_append, List.mem_singleton] at hd
      rcases hd with h | h
      · exact ih _ _ h
      · subst h; exact Nat.mod_lt _ hb

theorem digitsBEAux_length_le_iff (b : Nat) (hb : 2 ≤ b) :
    ∀ fuel n k, n ≤ fuel → ((digitsBEAux b fuel n).length ≤ k ↔ n < b ^ k) := by
  intro fuel
  induction fuel with
  | zero =>
    intro n k hn
    interval_cases n
    simpa [digitsBEAux] using Nat.pos_pow_of_pos k (by omega)
  | succ fuel ih =>
    intro n k hn
    by_cases h0 : n = 0
    · subst h0
      simpa [digitsBEAux] using Nat.pos_pow_of_pos k (by omega)
    · have hlt : n / b < n := Nat.div_lt_self (Nat.pos_of_ne_zero h0) (by omega)
      simp only [digitsBEAux, if_neg h0, List.length_append, List.length_singleton]
      cases k with
      | zero =>
        rw [pow_zero]
        omega
      | succ k =>
        have hiff := ih (n / b) k (by omega)
        constructor
        · intro h
          have : (digitsBEAux b fuel (n / b)).length ≤ k := by omega
          have hdb := hiff.mp this
          have := (Nat.div_lt_iff_lt_mul (show 0 < b by omega)).mp hdb
          calc n < b ^ k * b := this
            _ = b ^ (k + 1) := (pow_succ b k).symm
        · intro h
          have hdb : n / b < b ^ k := by
            rw [Nat.div_lt_iff_lt_mul (show 0 < b by omega)]
            calc n < b ^ (k + 1) := h
              _ = b ^ k * b := pow_succ b k
          have := hiff.mpr hdb
          omega

theorem digitsBEAux_head_pos (b : Nat) (hb : 2 ≤ b) :
    ∀ fuel n, n ≤ fuel → 0 < n →
      ∃ d t, digitsBEAux b fuel n = d :: t ∧ 0 < d := by
  intro fuel
  induction fuel with
  | zero => intro n hn h0; omega
  | succ fuel ih =>
    intro n hn h0
    have h0' : n ≠ 0 := by omega
    simp only [digitsBEAux, if_neg h0']
    by_cases hq : n / b = 0
    · have hnb : n < b := by
        by_contra hge
        have : 1 ≤ n / b := Nat.one_le_div_iff (by omega) |>.mpr (by omega)
        omega
      refine ⟨n % b, [], ?_, ?_⟩
      · rw [hq, digitsBEAux_zero]
        simp [Nat.mod_eq_of_lt hnb]
      · rw [Nat.mod_eq_of_lt hnb]; exact h0
    · have hlt : n / b < n := Nat.div_lt_self h0 (by omega)
      obtain ⟨d, t, hdt, hd⟩ := ih (n / b) (by omega) (Nat.pos_of_ne_zero hq)
      exact ⟨d, t ++ [n % b], by rw [hdt, List.cons_append], hd⟩

theorem ofBaseBE_replicate_zero (b k : Nat) (l : List Nat) :
    ofBaseBE b (List.replicate k 0 ++ l) = ofBaseBE b l := by
  induction k with
  | zero => simp
  | succ k ih =>
    simpa [ofBaseBE, List.replicate_succ] using ih

theorem hexCharVal_hexDigitChar (d : Nat) (hd : d < 16) :
    hexCharVal (hexDigitChar d) = d := by
  interval_cases d <;> decide

theorem isHexChar_hexDigitChar (d : Nat) (hd : d < 16) :
    isHexChar (hexDigitChar d) = true := by
  interval_cases d <;> decide

theorem decDigitChar_ne_zero_char (d : Nat) (hd : d < 10) (h0 : d ≠ 0) :
    decDigitChar d ≠ '0' := by
  interval_cases d <;> revert h0 <;> decide

theorem bigIntParse16_mk (l : List Char) (hne : l.isEmpty = false)
    (hall : l.all isHexChar = true) :
    bigIntParse16 (String.mk l) = some (ofBaseBE 16 (l.map hexCharVal)) := by
  have hd : (String.mk l).data = l := rfl
  simp [bigIntParse16, hd, hne, hall]

theorem natToHexStr_data_eq (n : Nat) (h0 : n ≠ 0) :
    (natToHexStr n).data = (digitsBE 16 n).map hexDigitChar := by
  simp [natToHexStr, h0]

theorem natToHexStr_vals (n : Nat) :
    ofBaseBE 16 ((natToHexStr n).data.map hexCharVal) = n := by
  by_cases h0 : n = 0
  · subst h0; decide
  · rw [natToHexStr_data_eq n h0, List.map_map]
    have hmap : (digitsBE 16 n).map (hexCharVal ∘ hexDigitChar) = digitsBE 16 n := by
      have := List.map_congr_left (l := digitsBE 16 n)
        (f := hexCharVal ∘ hexDigitChar) (g := id) (fun d hd => by
          simp [hexCharVal_hexDigitChar d (digitsBEAux_lt 16 (by omega) n n d hd)])
      simpa using this
    rw [hmap]
    exact digitsBEAux_ofBase 16 (by omega) n n le_rfl

theorem natToHexStr_all_hex (n : Nat) :
    (natToHexStr n).data.all isHexChar = true := by
  by_cases h0 : n = 0
  · subst h0; decide
  · rw [natToHexStr_data_eq n h0, List.all_eq_true]
    intro c hc
    rw [List.mem_map] at hc
    obtain ⟨d, hd, rfl⟩ := hc
    exact isHexChar_hexDigitChar d (digitsBEAux_lt 16 (by omega) n n d hd)

theorem natToHexStr_data_ne_nil (n : Nat) : (natToHexStr n).data ≠ [] := by
  by_cases h0 : n = 0
  · subst h0; decide
  · rw [natToHexStr_data_eq n h0]
    intro hnil
    have hlen : (digitsBEAux 16 n n).length = 0 := by
      have := congrArg List.length hnil
      simpa [digitsBE] using this
    have hn1 := (digitsBEAux_length_le_iff 16 (by omega) n n 0 le_rfl).mp (by omega)
    rw [pow_zero] at hn1
    omega

theorem natToHexStr_length_le_iff (n k : Nat) (hk : 0 < k) :
    ((natToHexStr n).length ≤ k ↔ n < 16 ^ k) := by
  by_cases h0 : n = 0
  · subst h0
    have h1 : (natToHexStr 0).length = 1 := by decide
    rw [h1]
    exact iff_of_true hk (pow_pos (by omega) k)
  · have hlen : (natToHexStr n).length = (digitsBE 16 n).length := by
      have : (natToHexStr n).length = (natToHexStr n).data.length := rfl
      rw [this, natToHexStr_data_eq n h0, List.length_map]
    rw [hlen]
    exact digitsBEAux_length_le_iff 16 (by omega) n n k le_rfl

theorem string_mk_nil_append (s : String) : String.mk [] ++ s = s := by
  cases s
  rfl

/-- The left-zero-padded hex rendering parses back (base 16) to the
original value. -/
theorem bigIntParse16_pad (k n : Nat) :
    bigIntParse16 (String.mk (List.replicate k '0') ++ natToHexStr n) = some n := by
  have hstr : String.mk (List.replicate k '0') ++ natToHexStr n
      = String.mk (List.replicate k '0' ++ (natToHexStr n).data) := by
    cases natToHexStr n
    rfl
  rw [hstr, bigIntParse16_mk _ ?hne ?hall]
  case hne =>
    rw [List.isEmpty_eq_false_iff_exists_mem]
    obtain ⟨c, hc⟩ := List.exists_mem_of_ne_nil _ (natToHexStr_data_ne_nil n)
    exact ⟨c, List.mem_append_right _ hc⟩
  case hall =>
    rw [List.all_append]
    refine Bool.and_eq_true_iff.mpr ⟨?_, natToHexStr_all_hex n⟩
    rw [List.all_eq_true]
    intro c hc
    rw [List.eq_of_mem_replicate hc]
    decide
  rw [List.map_append, List.map_replicate]
  have h0 : hexCharVal '0' = 0 := by decide
  rw [h0, ofBaseBE_replicate_zero, natToHexStr_vals]

theorem natToDecStr_no_leading_zero (n : Nat) :
    natToDecStr n = "0" ∨ (natToDecStr n).data.head? ≠ some '0' := by
  by_cases h0 : n = 0
  · left; simp [natToDecStr, h0]
  · right
    obtain ⟨d, t, hdt, hd⟩ :=
      digitsBEAux_head_pos 10 (by omega) n n le_rfl (Nat.pos_of_ne_zero h0)
    have hdata : (natToDecStr n).data = (digitsBE 10 n).map decDigitChar := by
      simp [natToDecStr, h0]
    rw [hdata, show digitsBE 10 n = d :: t from hdt]
    simp only [List.map_cons, List.head?_cons, ne_eq, Option.some.injEq]
    have hdlt : d < 10 := digitsBEAux_lt 10 (by omega) n n d
      (by rw [hdt]; exact List.mem_cons_self _ _)
    exact decDigitChar_ne_zero_char d hdlt (by omega)

theorem bigIntParse10_digits (v : String) (hne : v.data.isEmpty = false)
    (hdig : v.data.all Char.isDigit = true) :
    bigIntParse10 v = some (decValue v) := by
  simp [bigIntParse10, decValue, hne, hdig]

/-- C3: for every nonempty decimal-digit string `v` whose value is below
`2 ^ 128`, `encodeBalance v` succeeds with a 32-character left-zero-padded
hex string, and `decodeBalance` of that string yields the canonical
(no-leading-zero) decimal rendering of the value of `v`. -/
theorem balance_roundtrip (v : String)
    (hne : v.data.isEmpty = false) (hdig : v.data.all Char.isDigit = true)
    (hlt : decValue v < 2 ^ 128) :
    ∃ h, encodeBalance v = Except.ok h ∧
      h.length = 32 ∧
      h.data.all isHexChar = true ∧
      h = String.mk (List.replicate (32 - (natToHexStr (decValue v)).length) '0')
          ++ natToHexStr (decValue v) ∧
      decodeBalance h = Except.ok (natToDecStr (decValue v)) ∧
      (natToDecStr (decValue v) = "0" ∨
        (natToDecStr (decValue v)).data.head? ≠ some '0') := by
  have h216 : (16 : Nat) ^ 32 = 2 ^ 128 := by norm_num
  have hle : (natToHexStr (decValue v)).length ≤ 32 :=
    (natToHexStr_length_le_iff (decValue v) 32 (by omega)).mpr (by omega)
  refine ⟨String.mk (List.replicate (32 - (natToHexStr (decValue v)).length) '0')
      ++ natToHexStr (decValue v), ?_, ?_, ?_, rfl, ?_, natToDecStr_no_leading_zero _⟩
  · unfold encodeBalance
    rw [bigIntParse10_digits v hne hdig]
    by_cases hcase : (natToHexStr (decValue v)).length < 32
    · simp only [hcase, if_pos]
    · have h32 : (natToHexStr (decValue v)).length = 32 := by omega
      have hzero : 32 - (natToHexStr (decValue v)).length = 0 := by omega
      simp only [hcase, if_neg, if_false]
      rw [hzero]
      exact congrArg Except.ok (string_mk_nil_append _).symm
  · have hd : (String.mk (List.replicate (32 - (natToHexStr (decValue v)).length) '0')
        ++ natToHexStr (decValue v)).data
        = List.replicate (32 - (natToHexStr (decValue v)).length) '0'
          ++ (natToHexStr (decValue v)).data := String.data_append _ _
    have : (String.mk (List.replicate (32 - (natToHexStr (decValue v)).length) '0')
        ++ natToHexStr (decValue v)).length
        = (List.replicate (32 - (natToHexStr (decValue v)).length) '0'
          ++ (natToHexStr (decValue v)).data).length := congrArg List.length hd
    rw [this, List.length_append, List.length_replicate]
    have : (natToHexStr (decValue v)).data.length = (natToHexStr (decValue v)).length := rfl
    omega
  · have hd : (String.mk (List.replicate (32 - (natToHexStr (decValue v)).length) '0')
        ++ natToHexStr (decValue v)).data
        = List.replicate (32 - (natToHexStr (decValue v)).length) '0'
          ++ (natToHexStr (decValue v)).data := String.data_append _ _
    rw [hd, List.all_append]
    refine Bool.and_eq_true_iff.mpr ⟨?_, natToHexStr_all_hex _⟩
    rw [List.all_eq_true]
    intro c hc
    rw [List.eq_of_mem_replicate hc]
    decide
  · unfold decodeBalance
    rw [bigIntParse16_pad]

/-- C3 witness at `v = "7"`. -/
theorem balance_roundtrip_witness :
    ("7" : String).data.isEmpty = false ∧ ("7" : String).data.all Char.isDigit = true ∧
      decValue "7" < 2 ^ 128 ∧
      ∃ h, encodeBalance "7" = Except.ok h ∧
        h.length = 32 ∧
        h.data.all isHexChar = true ∧
        h = String.mk (List.replicate (32 - (natToHexStr (decValue "7")).length) '0')
            ++ natToHexStr (decValue "7") ∧
        decodeBalance h = Except.ok (natToDecStr (decValue "7")) ∧
        (natToDecStr (decValue "7") = "0" ∨
          (natToDecStr (decValue "7")).data.head? ≠ some '0') :=
  ⟨by decide, by decide, by decide,
    balance_roundtrip "7" (by decide) (by decide) (by decide)⟩

/-- C9: for every nonempty decimal-digit string whose value is at least
`2 ^ 128`, `encodeBalance` returns the over-length hex rendering
unchanged (longer than 32 characters), neither truncating nor erroring. -/
theorem encodeBalance_overflow (v : String)
    (hne : v.data.isEmpty = false) (hdig : v.data.all Char.isDigit = true)
    (hge : 2 ^ 128 ≤ decValue v) :
    encodeBalance v = Except.ok (natToHexStr (decValue v)) ∧
      32 < (natToHexStr (decValue v)).length := by
  have h216 : (16 : Nat) ^ 32 = 2 ^ 128 := by norm_num
  have hgt : ¬ (natToHexStr (decValue v)).length ≤ 32 := by
    intro hle
    have := (natToHexStr_length_le_iff (decValue v) 32 (by omega)).mp hle
    omega
  constructor
  · unfold encodeBalance
    rw [bigIntParse10_digits v hne hdig]
    simp only [if_neg (show ¬ (natToHexStr (decValue v)).length < 32 by omega)]
  · omega

/-- C4 (code bug): on the 60-character input `"10111...1"` — whose
second character `'0'` is outside the 32-symbol alphabet, so the claim
requires a `null` return — `decodeAddress` instead propagates the
base-32 decoder's invalid-character exception: the validation regex's
character class `[0-9a-km-uw-z]` wrongly admits `'0'` (and `'2'`), so
the input reaches `nanoBase32.decode`, which throws. -/
theorem decodeAddress_throws_on_invalid_char (h5 : List Nat → List Nat) :
    decodeAddress h5
      "101111111111111111111111111111111111111111111111111111111111"
      ["nano_", "xrb_"]
      = Except.error "Invalid character found: 0" := by
  rfl

set_option maxRecDepth 100000 in
/-- C5 (code bug): a descriptor whose balance `"a1"` is not a decimal
numeral (it contains the non-digit `'a'`) is accepted by
`processBlockData`, because the balance validation regex `/[0-9]+/` is
unanchored and `"a1"` contains a digit; the claim requires a thrown
validation error. -/
theorem processBlockData_accepts_nondigit_balance :
    processBlockData dummyHash5 testCoin
      { previousBlock := some
          "0000000000000000000000000000000000000000000000000000000000000000",
        representative := addrOnes, balance := "a1",
        sourceBlock := none, recipient := none }
      = Except.ok (List.replicate 32 0, none) := by
  rfl

/-- C9 witness at `v = 2 ^ 128` (written in decimal). -/
theorem encodeBalance_overflow_witness :
    ("340282366920938463463374607431768211456" : String).data.isEmpty = false ∧
      ("340282366920938463463374607431768211456" : String).data.all Char.isDigit = true ∧
      2 ^ 128 ≤ decValue "340282366920938463463374607431768211456" ∧
      (encodeBalance "340282366920938463463374607431768211456"
          = Except.ok (natToHexStr (decValue "340282366920938463463374607431768211456")) ∧
        32 < (natToHexStr (decValue "340282366920938463463374607431768211456")).length) :=
  ⟨by decide, by decide, by decide,
    encodeBalance_overflow "340282366920938463463374607431768211456"
      (by decide) (by decide) (by decide)⟩


/-! ### Buffer-write lemmas for the frame builders -/

theorem writeBytes_fill (done : List Nat) (k : Nat) (bs : List Nat)
    (h : bs.length ≤ k) :
    writeBytes (done ++ List.replicate k 0) done.length bs
      = (done ++ bs ++ List.replicate (k - bs.length) 0, bs.length) := by
  have hmin : min bs.length ((done ++ List.replicate k 0).length - done.length)
      = bs.length := by
    simp only [List.length_append, List.length_replicate]
    omega
  simp only [writeBytes, hmin, List.take_length, List.take_left]
  rw [← List.drop_drop, List.drop_left, List.drop_replicate]

theorem writeU8Field_spec (done : List Nat) (k n : Nat) (h : 1 ≤ k) :
    writeU8Field n (done ++ List.replicate k 0, done.length)
      = (done ++ [n] ++ List.replicate (k - 1) 0, (done ++ [n]).length) := by
  simp only [writeU8Field]
  rw [writeBytes_fill done k [n] (by simpa using h)]
  simp

theorem writeHexField_spec (s : String) (done : List Nat) (k : Nat)
    (h : (hexPairs s.data).length ≤ k) :
    writeHexField s (done ++ List.replicate k 0, done.length)
      = (done ++ hexPairs s.data
          ++ List.replicate (k - (hexPairs s.data).length) 0,
        (done ++ hexPairs s.data).length) := by
  simp only [writeHexField]
  have hroom : (done ++ List.replicate k 0).length - done.length = k := by simp
  rw [hroom, List.take_of_length_le h, writeBytes_fill done k _ h]
  simp

theorem writeRawField_spec (bs : List Nat) (done : List Nat) (k : Nat)
    (h : bs.length ≤ k) :
    writeRawField bs (done ++ List.replicate k 0, done.length)
      = (done ++ bs ++ List.replicate (k - bs.length) 0,
        (done ++ bs).length) := by
  simp only [writeRawField]
  rw [writeBytes_fill done k bs h]
  simp

theorem skipField_spec (done : List Nat) (k : Nat) (h : 32 ≤ k) :
    skipField (done ++ List.replicate k 0, done.length)
      = (done ++ List.replicate 32 0 ++ List.replicate (k - 32) 0,
        (done ++ List.replicate 32 0).length) := by
  simp only [skipField, Prod.mk.injEq]
  refine ⟨?_, by simp⟩
  rw [List.append_assoc, ← List.replicate_add]
  congr 2
  omega

theorem writePathSegments_spec (segs : List Nat) :
    ∀ (done : List Nat) (k : Nat), 4 * segs.length ≤ k →
      writePathSegments segs (done ++ List.replicate k 0, done.length)
        = (done ++ (segs.map be32).flatten
            ++ List.replicate (k - 4 * segs.length) 0,
          (done ++ (segs.map be32).flatten).length) := by
  induction segs with
  | nil =>
    intro done k hk
    simp [writePathSegments]
  | cons s t ih =>
    intro done k hk
    simp only [List.length_cons] at hk
    have h4 : (be32 s).length = 4 := rfl
    have hle : (be32 s).length ≤ k := by rw [h4]; omega
    have hstep : writePathSegments (s :: t) (done ++ List.replicate k 0, done.length)
        = writePathSegments t
            ((writeBytes (done ++ List.replicate k 0) done.length (be32 s)).1,
              done.length + 4) := rfl
    have hw1 : (writeBytes (done ++ List.replicate k 0) done.length (be32 s)).1
        = (done ++ be32 s) ++ List.replicate (k - 4) 0 := by
      rw [writeBytes_fill done k (be32 s) hle, h4]
    have hdl : done.length + 4 = (done ++ be32 s).length := by simp [h4]
    have hih := ih (done ++ be32 s) (k - 4) (by omega)
    rw [hstep, hw1, hdl, hih]
    simp only [List.map_cons, List.flatten_cons, List.length_cons, Prod.mk.injEq]
    constructor
    · rw [show k - 4 - 4 * t.length = k - 4 * (t.length + 1) from by omega]
      simp [List.append_assoc]
    · simp [List.append_assoc]

theorem truthy_some_of_ne (s : String) (h : s.data ≠ []) :
    truthy (some s) = true := by
  cases hd : s.data with
  | nil => exact absurd hd h
  | cons a l => simp [truthy, hd]

theorem hexPairs_ne_nil_data (s : String) (h : (hexPairs s.data).length = 32) :
    s.data ≠ [] := by
  intro hnil
  rw [hnil] at h
  simp [hexPairs] at h

theorem truthy_none : truthy none = false := rfl

theorem writeBlockFields_spec (b : BlockData) (recipOpt : Option (List Nat))
    (repPk : List Nat) (balHex : String) (done : List Nat) (k : Nat)
    (hk : 112 ≤ k)
    (hrep32 : repPk.length = 32)
    (hrecip32 : ∀ pk, recipOpt = some pk → pk.length = 32)
    (hprev32 : ∀ s, b.previousBlock = some s → (hexPairs s.data).length = 32)
    (hsrc32 : ∀ s, b.sourceBlock = some s → (hexPairs s.data).length = 32)
    (hbal16 : (hexPairs balHex.data).length = 16) :
    writeBlockFields b recipOpt repPk balHex
        (done ++ List.replicate k 0, done.length)
      = (done ++ prevBytes b ++ slot2 b recipOpt ++ repPk
          ++ hexPairs balHex.data ++ List.replicate (k - 112) 0,
        done.length + 112) := by
  cases hpb : b.previousBlock with
  | some ps =>
    have hp := hprev32 ps hpb
    have tps : truthy (some ps) = true :=
      truthy_some_of_ne ps (hexPairs_ne_nil_data ps hp)
    cases hsb : b.sourceBlock with
    | some ss =>
      have hs := hsrc32 ss hsb
      have tss : truthy (some ss) = true :=
        truthy_some_of_ne ss (hexPairs_ne_nil_data ss hs)
      simp only [writeBlockFields, hpb, hsb, tps, tss, Option.getD_some,
        if_true]
      rw [writeHexField_spec ps done k (by omega), hp]
      rw [writeHexField_spec ss (done ++ hexPairs ps.data) (k - 32)
        (by omega), hs]
      rw [writeRawField_spec repPk (done ++ hexPairs ps.data ++ hexPairs ss.data)
        (k - 32 - 32) (by omega), hrep32]
      rw [writeHexField_spec balHex
        (done ++ hexPairs ps.data ++ hexPairs ss.data ++ repPk)
        (k - 32 - 32 - 32) (by omega), hbal16]
      rw [show k - 32 - 32 - 32 - 16 = k - 112 from by omega]
      simp [prevBytes, slot2, hpb, hsb, hp, hs, hrep32, hbal16]
      try omega
    | none =>
      cases hro : recipOpt with
      | some pk =>
        have hpk := hrecip32 pk hro
        simp only [writeBlockFields, hpb, hsb, hro, tps, truthy_none,
          Option.getD_some, if_true, Bool.false_eq_true, if_false]
        rw [writeHexField_spec ps done k (by omega), hp]
        rw [writeRawField_spec pk (done ++ hexPairs ps.data) (k - 32)
          (by omega), hpk]
        rw [writeRawField_spec repPk (done ++ hexPairs ps.data ++ pk)
          (k - 32 - 32) (by omega), hrep32]
        rw [writeHexField_spec balHex (done ++ hexPairs ps.data ++ pk ++ repPk)
          (k - 32 - 32 - 32) (by omega), hbal16]
        rw [show k - 32 - 32 - 32 - 16 = k - 112 from by omega]
        simp [prevBytes, slot2, hpb, hsb, hro, hp, hpk, hrep32, hbal16]
        try omega
      | none =>
        simp only [writeBlockFields, hpb, hsb, hro, tps, truthy_none,
          Option.getD_some, if_true, Bool.false_eq_true, if_false]
        rw [writeHexField_spec ps done k (by omega), hp]
        rw [skipField_spec (done ++ hexPairs ps.data) (k - 32) (by omega)]
        rw [writeRawField_spec repPk
          (done ++ hexPairs ps.data ++ List.replicate 32 0)
          (k - 32 - 32) (by omega), hrep32]
        rw [writeHexField_spec balHex
          (done ++ hexPairs ps.data ++ List.replicate 32 0 ++ repPk)
          (k - 32 - 32 - 32) (by omega), hbal16]
        rw [show k - 32 - 32 - 32 - 16 = k - 112 from by omega]
        simp [prevBytes, slot2, hpb, hsb, hro, hp, hrep32, hbal16]
        try omega
  | none =>
    cases hsb : b.sourceBlock with
    | some ss =>
      have hs := hsrc32 ss hsb
      have tss : truthy (some ss) = true :=
        truthy_some_of_ne ss (hexPairs_ne_nil_data ss hs)
      simp only [writeBlockFields, hpb, hsb, tss, truthy_none,
        Option.getD_some, if_true, Bool.false_eq_true, if_false]
      rw [skipField_spec done k (by omega)]
      rw [writeHexField_spec ss (done ++ List.replicate 32 0) (k - 32)
        (by omega), hs]
      rw [writeRawField_spec repPk
        (done ++ List.replicate 32 0 ++ hexPairs ss.data)
        (k - 32 - 32) (by omega), hrep32]
      rw [writeHexField_spec balHex
        (done ++ List.replicate 32 0 ++ hexPairs ss.data ++ repPk)
        (k - 32 - 32 - 32) (by omega), hbal16]
      rw [show k - 32 - 32 - 32 - 16 = k - 112 from by omega]
      simp [prevBytes, slot2, hpb, hsb, hs, hrep32, hbal16]
      try omega
    | none =>
      cases hro : recipOpt with
      | some pk =>
        have hpk := hrecip32 pk hro
        simp only [writeBlockFields, hpb, hsb, hro, truthy_none,
          Bool.false_eq_true, if_false]
        rw [skipField_spec done k (by omega)]
        rw [writeRawField_spec pk (done ++ List.replicate 32 0) (k - 32)
          (by omega), hpk]
        rw [writeRawField_spec repPk (done ++ List.replicate 32 0 ++ pk)
          (k - 32 - 32) (by omega), hrep32]
        rw [writeHexField_spec balHex
          (done ++ List.replicate 32 0 ++ pk ++ repPk)
          (k - 32 - 32 - 32) (by omega), hbal16]
        rw [show k - 32 - 32 - 32 - 16 = k - 112 from by omega]
        simp [prevBytes, slot2, hpb, hsb, hro, hpk, hrep32, hbal16]
        try omega
      | none =>
        simp only [writeBlockFields, hpb, hsb, hro, truthy_none,
          Bool.false_eq_true, if_false]
        rw [skipField_spec done k (by omega)]
        rw [skipField_spec (done ++ List.replicate 32 0) (k - 32) (by omega)]
        rw [writeRawField_spec repPk
          (done ++ List.replicate 32 0 ++ List.replicate 32 0)
          (k - 32 - 32) (by omega), hrep32]
        rw [writeHexField_spec balHex
          (done ++ List.replicate 32 0 ++ List.replicate 32 0 ++ repPk)
          (k - 32 - 32 - 32) (by omega), hbal16]
        rw [show k - 32 - 32 - 32 - 16 = k - 112 from by omega]
        simp [prevBytes, slot2, hpb, hsb, hro, hrep32, hbal16]
        try omega

theorem hexPairs_length_all (l : List Char) (h : l.all isHexChar = true) :
    (hexPairs l).length = l.length / 2 := by
  have main : ∀ (n : Nat) (l : List Char), l.length = n →
      l.all isHexChar = true → (hexPairs l).length = l.length / 2 := by
    intro n
    induction n using Nat.strong_induction_on with
    | _ n ih =>
      intro l hlen hall
      rcases l with _ | ⟨c1, _ | ⟨c2, rest⟩⟩
      · simp [hexPairs]
      · simp [hexPairs]
      · rw [List.all_cons, List.all_cons] at hall
        have h1 : isHexChar c1 = true := by
          rcases Bool.and_eq_true_iff.mp hall with ⟨x, _⟩; exact x
        have h2 : isHexChar c2 = true := by
          rcases Bool.and_eq_true_iff.mp hall with ⟨_, y⟩
          rcases Bool.and_eq_true_iff.mp y with ⟨x, _⟩; exact x
        have hrest : rest.all isHexChar = true := by
          rcases Bool.and_eq_true_iff.mp hall with ⟨_, y⟩
          rcases Bool.and_eq_true_iff.mp y with ⟨_, z⟩; exact z
        simp only [List.length_cons] at hlen
        have hih := ih rest.length (by omega) rest rfl hrest
        simp only [hexPairs, h1, h2, Bool.and_self, if_true, List.length_cons]
        rw [hih]
        omega
  exact main l.length l rfl h

theorem flatten_be32_length (l : List Nat) :
    ((l.map be32).flatten).length = 4 * l.length := by
  induction l with
  | nil => simp
  | cons s t ih =>
    simp only [List.map_cons, List.flatten_cons, List.length_append, ih,
      List.length_cons]
    have h4 : (be32 s).length = 4 := rfl
    omega


theorem encodeBalance_ok_hex (v : String) (hne : v.data.isEmpty = false)
    (hdig : v.data.all Char.isDigit = true) (hlt : decValue v < 2 ^ 128) :
    ∃ h, encodeBalance v = Except.ok h ∧ h.data.length = 32 ∧
      h.data.all isHexChar = true := by
  have h216 : (16 : Nat) ^ 32 = 2 ^ 128 := by norm_num
  have hle : (natToHexStr (decValue v)).length ≤ 32 :=
    (natToHexStr_length_le_iff (decValue v) 32 (by omega)).mpr (by omega)
  refine ⟨String.mk (List.replicate (32 - (natToHexStr (decValue v)).length) '0')
      ++ natToHexStr (decValue v), ?_, ?_, ?_⟩
  · unfold encodeBalance
    rw [bigIntParse10_digits v hne hdig]
    by_cases hcase : (natToHexStr (decValue v)).length < 32
    · simp only [hcase, if_pos]
    · have hzero : 32 - (natToHexStr (decValue v)).length = 0 := by omega
      simp only [hcase, if_neg, if_false]
      rw [hzero]
      exact congrArg Except.ok (string_mk_nil_append _).symm
  · have hd : (String.mk (List.replicate (32 - (natToHexStr (decValue v)).length) '0')
        ++ natToHexStr (decValue v)).data
        = List.replicate (32 - (natToHexStr (decValue v)).length) '0'
          ++ (natToHexStr (decValue v)).data := String.data_append _ _
    rw [hd, List.length_append, List.length_replicate]
    have : (natToHexStr (decValue v)).data.length = (natToHexStr (decValue v)).length := rfl
    omega
  · have hd : (String.mk (List.replicate (32 - (natToHexStr (decValue v)).length) '0')
        ++ natToHexStr (decValue v)).data
        = List.replicate (32 - (natToHexStr (decValue v)).length) '0'
          ++ (natToHexStr (decValue v)).data := String.data_append _ _
    rw [hd, List.all_append]
    refine Bool.and_eq_true_iff.mpr ⟨?_, natToHexStr_all_hex _⟩
    rw [List.all_eq_true]
    intro c hc
    rw [List.eq_of_mem_replicate hc]
    decide

theorem prevBytes_length (b : BlockData)
    (hprev32 : ∀ s, b.previousBlock = some s → (hexPairs s.data).length = 32) :
    (prevBytes b).length = 32 := by
  cases hpb : b.previousBlock with
  | none => simp [prevBytes, hpb]
  | some s => simp [prevBytes, hpb, hprev32 s hpb]

theorem slot2_length (b : BlockData) (recipOpt : Option (List Nat))
    (hsrc32 : ∀ s, b.sourceBlock = some s → (hexPairs s.data).length = 32)
    (hrecip32 : ∀ pk, recipOpt = some pk → pk.length = 32) :
    (slot2 b recipOpt).length = 32 := by
  cases hsb : b.sourceBlock with
  | some s => simp [slot2, hsb, hsrc32 s hsb]
  | none =>
    cases hro : recipOpt with
    | some pk => simp [slot2, hsb, hro, hrecip32 pk hro]
    | none => simp [slot2, hsb, hro]

/-- C1: for every valid block descriptor (representative decoded to a
32-byte key, any recipient decoded to a 32-byte key, hashes 64 hex
characters when present, balance a decimal numeral below `2 ^ 128`) and
every BIP-32 path, the Sign-block request payload is, in order: the
path-length byte, the 4-byte big-endian path segments, 32 bytes of the
hex-decoded previousBlock or zero if absent, a 32-byte slot holding the
hex-decoded sourceBlock / the recipient public key / zero, the 32-byte
representative public key, and the 16 bytes of the hex-decoded
`encodeBalance` output; the Cache-block payload is identical with the
64-byte hex-decoded signature appended. -/
theorem sign_cache_payload_layout (h5 : List Nat → List Nat)
    (coin : CoinConfig) (bipPath : List Nat) (b : BlockData)
    (repPk : List Nat) (recipOpt : Option (List Nat))
    (hok : processBlockData h5 coin b = Except.ok (repPk, recipOpt))
    (hrep32 : repPk.length = 32)
    (hrecip32 : ∀ pk, recipOpt = some pk → pk.length = 32)
    (hprev : ∀ s, b.previousBlock = some s →
      s.length = 64 ∧ s.data.all isHexChar = true)
    (hsrc : ∀ s, b.sourceBlock = some s →
      s.length = 64 ∧ s.data.all isHexChar = true)
    (hbne : b.balance.data.isEmpty = false)
    (hbdig : b.balance.data.all Char.isDigit = true)
    (hblt : decValue b.balance < 2 ^ 128)
    (hN : bipPath.length ≤ 255) :
    ∃ balHex, encodeBalance b.balance = Except.ok balHex ∧
      (hexPairs balHex.data).length = 16 ∧
      (prevBytes b).length = 32 ∧
      (slot2 b recipOpt).length = 32 ∧
      ((bipPath.map be32).flatten).length = 4 * bipPath.length ∧
      (∃ fr, signBlockRequest h5 coin bipPath b = Except.ok fr ∧
        fr.payload = [bipPath.length] ++ (bipPath.map be32).flatten
          ++ prevBytes b ++ slot2 b recipOpt ++ repPk
          ++ hexPairs balHex.data) ∧
      (∀ sig : String, sig.length = 128 → sig.data.all isHexChar = true →
        ∃ fr, cacheBlockRequest h5 coin bipPath b sig = Except.ok fr ∧
          fr.payload = [bipPath.length] ++ (bipPath.map be32).flatten
            ++ prevBytes b ++ slot2 b recipOpt ++ repPk
            ++ hexPairs balHex.data ++ hexPairs sig.data) := by
  obtain ⟨balHex, hbal, hb32, hbhex⟩ :=
    encodeBalance_ok_hex b.balance hbne hbdig hblt
  have hbal16 : (hexPairs balHex.data).length = 16 := by
    rw [hexPairs_length_all balHex.data hbhex, hb32]
  have hprev32 : ∀ s, b.previousBlock = some s →
      (hexPairs s.data).length = 32 := by
    intro s hs
    obtain ⟨hl, hx⟩ := hprev s hs
    rw [hexPairs_length_all s.data hx,
      show s.data.length = s.length from rfl, hl]
  have hsrc32 : ∀ s, b.sourceBlock = some s →
      (hexPairs s.data).length = 32 := by
    intro s hs
    obtain ⟨hl, hx⟩ := hsrc s hs
    rw [hexPairs_length_all s.data hx,
      show s.data.length = s.length from rfl, hl]
  have hplen := prevBytes_length b hprev32
  have hslen := slot2_length b recipOpt hsrc32 hrecip32
  refine ⟨balHex, hbal, hbal16, hplen, hslen, flatten_be32_length bipPath,
    ?_, ?_⟩
  · simp only [signBlockRequest, hok, hbal]
    refine ⟨_, rfl, ?_⟩
    have h1 := writeU8Field_spec []
      (1 + 4 * bipPath.length + 32 + 32 + 32 + 16) bipPath.length (by omega)
    simp only [List.nil_append, List.length_nil] at h1
    have h2 := writePathSegments_spec bipPath [bipPath.length]
      (1 + 4 * bipPath.length + 32 + 32 + 32 + 16 - 1) (by omega)
    have h3 := writeBlockFields_spec b recipOpt repPk balHex
      ([bipPath.length] ++ (bipPath.map be32).flatten)
      (1 + 4 * bipPath.length + 32 + 32 + 32 + 16 - 1 - 4 * bipPath.length)
      (by omega) hrep32 hrecip32 hprev32 hsrc32 hbal16
    simp only []
    rw [h1, h2, h3]
    try rw [show 1 + 4 * bipPath.length + 32 + 32 + 32 + 16 - 1
      - 4 * bipPath.length - 112 = 0 from by omega]
    try simp
  · intro sig hsiglen hsighex
    have hsig64 : (hexPairs sig.data).length = 64 := by
      rw [hexPairs_length_all sig.data hsighex,
        show sig.data.length = sig.length from rfl, hsiglen]
    have hbne128 : (sig.length != 128) = false := by
      simp [hsiglen]
    simp only [cacheBlockRequest, hok, hbal, hbne128, Bool.false_eq_true,
      if_false]
    refine ⟨_, rfl, ?_⟩
    have h1 := writeU8Field_spec []
      (1 + 4 * bipPath.length + 32 + 32 + 32 + 16 + 64) bipPath.length
      (by omega)
    simp only [List.nil_append, List.length_nil] at h1
    have h2 := writePathSegments_spec bipPath [bipPath.length]
      (1 + 4 * bipPath.length + 32 + 32 + 32 + 16 + 64 - 1) (by omega)
    have h3 := writeBlockFields_spec b recipOpt repPk balHex
      ([bipPath.length] ++ (bipPath.map be32).flatten)
      (1 + 4 * bipPath.length + 32 + 32 + 32 + 16 + 64 - 1 - 4 * bipPath.length)
      (by omega) hrep32 hrecip32 hprev32 hsrc32 hbal16
    have hlen3 : ([bipPath.length] ++ (bipPath.map be32).flatten).length + 112
        = ([bipPath.length] ++ (bipPath.map be32).flatten ++ prevBytes b
            ++ slot2 b recipOpt ++ repPk ++ hexPairs balHex.data).length := by
      simp only [List.length_append, hplen, hslen, hrep32, hbal16]
      try omega
    have h4 := writeHexField_spec sig
      ([bipPath.length] ++ (bipPath.map be32).flatten ++ prevBytes b
        ++ slot2 b recipOpt ++ repPk ++ hexPairs balHex.data)
      (1 + 4 * bipPath.length + 32 + 32 + 32 + 16 + 64 - 1
        - 4 * bipPath.length - 112)
      (by rw [hsig64]; omega)
    simp only []
    rw [h1, h2, h3, hlen3, h4]
    try rw [hsig64]
    try rw [show 1 + 4 * bipPath.length + 32 + 32 + 32 + 16 + 64 - 1
      - 4 * bipPath.length - 112 - 64 = 0 from by omega]
    try simp

/-! ### C2: the classifier accepts exactly the four block shapes -/

theorem stripMatchedPre_nil (ps : List String) : stripMatchedPre [] ps = [] := by
  induction ps with
  | nil => rfl
  | cons p rest ih =>
    simp only [stripMatchedPre]
    cases hp : p.data with
    | nil => simp [listStartsWith]
    | cons a as => simp [listStartsWith, ih]

theorem decodeAddress_ok_some_ne_empty (h5 : List Nat → List Nat) (s : String)
    (ps : List String) (pk : List Nat)
    (h : decodeAddress h5 s ps = Except.ok (some pk)) : s.data.isEmpty = false := by
  cases hd : s.data with
  | cons a l => rfl
  | nil =>
    exfalso
    unfold decodeAddress at h
    rw [hd, stripMatchedPre_nil] at h
    simp [regexSearch] at h

theorem string_isEmpty_false_of_len (s : String) (h : 0 < s.length) :
    s.data.isEmpty = false := by
  cases hd : s.data with
  | cons a l => rfl
  | nil =>
    exfalso
    have : s.length = s.data.length := rfl
    rw [hd] at this
    simp at this
    omega

/-- C2: for a descriptor whose individually-validated fields pass
(representative and any supplied recipient decode, hashes when present
are 64 characters, balance passes the digit test), `processBlockData`
succeeds if and only if the presence pattern of
(previousBlock, sourceBlock, recipient) is exactly one of the four
shapes open `(∅, src, ∅)`, receive `(prev, src, ∅)`, send
`(prev, ∅, rcpt)` or change `(prev, ∅, ∅)`. -/
theorem processBlockData_shape_iff (h5 : List Nat → List Nat) (c : CoinConfig)
    (b : BlockData) (repPk : List Nat)
    (hrep : decodeAddress h5 b.representative (addressPrefixes c)
      = Except.ok (some repPk))
    (hprev : ∀ s, b.previousBlock = some s → s.length = 64)
    (hsrc : ∀ s, b.sourceBlock = some s → s.length = 64)
    (hrecip : ∀ s, b.recipient = some s →
      ∃ pk, decodeAddress h5 s (addressPrefixes c) = Except.ok (some pk))
    (hbal : containsDigit b.balance = true) :
    (∃ r, processBlockData h5 c b = Except.ok r) ↔
      ((b.previousBlock.isSome = false ∧ b.sourceBlock.isSome = true
          ∧ b.recipient.isSome = false) ∨
        (b.previousBlock.isSome = true ∧ b.sourceBlock.isSome = true
          ∧ b.recipient.isSome = false) ∨
        (b.previousBlock.isSome = true ∧ b.sourceBlock.isSome = false
          ∧ b.recipient.isSome = true) ∨
        (b.previousBlock.isSome = true ∧ b.sourceBlock.isSome = false
          ∧ b.recipient.isSome = false)) := by
  rcases hpb : b.previousBlock with _ | ps <;>
    rcases hsb : b.sourceBlock with _ | ss <;>
    rcases hrb : b.recipient with _ | rs
  case none.none.none =>
    simp [processBlockData, hpb, hsb, hrb, truthy, hrep, hbal]
  case none.none.some =>
    obtain ⟨pk2, hpk2⟩ := hrecip rs hrb
    have hre := decodeAddress_ok_some_ne_empty h5 rs _ pk2 hpk2
    simp [processBlockData, hpb, hsb, hrb, truthy, hrep, hbal, hre, hpk2]
  case none.some.none =>
    have hs64 := hsrc ss hsb
    have hse := string_isEmpty_false_of_len ss (by omega)
    simp [processBlockData, hpb, hsb, hrb, truthy, hrep, hbal, hse, hs64]
  case none.some.some =>
    have hs64 := hsrc ss hsb
    have hse := string_isEmpty_false_of_len ss (by omega)
    obtain ⟨pk2, hpk2⟩ := hrecip rs hrb
    have hre := decodeAddress_ok_some_ne_empty h5 rs _ pk2 hpk2
    simp [processBlockData, hpb, hsb, hrb, truthy, hrep, hbal, hse, hs64, hre, hpk2]
  case some.none.none =>
    have hp64 := hprev ps hpb
    have hpe := string_isEmpty_false_of_len ps (by omega)
    simp [processBlockData, hpb, hsb, hrb, truthy, hrep, hbal, hpe, hp64]
  case some.none.some =>
    have hp64 := hprev ps hpb
    have hpe := string_isEmpty_false_of_len ps (by omega)
    obtain ⟨pk2, hpk2⟩ := hrecip rs hrb
    have hre := decodeAddress_ok_some_ne_empty h5 rs _ pk2 hpk2
    simp [processBlockData, hpb, hsb, hrb, truthy, hrep, hbal, hpe, hp64, hre, hpk2]
  case some.some.none =>
    have hp64 := hprev ps hpb
    have hpe := string_isEmpty_false_of_len ps (by omega)
    have hs64 := hsrc ss hsb
    have hse := string_isEmpty_false_of_len ss (by omega)
    simp [processBlockData, hpb, hsb, hrb, truthy, hrep, hbal, hpe, hp64, hse, hs64]
  case some.some.some =>
    have hp64 := hprev ps hpb
    have hpe := string_isEmpty_false_of_len ps (by omega)
    have hs64 := hsrc ss hsb
    have hse := string_isEmpty_false_of_len ss (by omega)
    obtain ⟨pk2, hpk2⟩ := hrecip rs hrb
    have hre := decodeAddress_ok_some_ne_empty h5 rs _ pk2 hpk2
    simp [processBlockData, hpb, hsb, hrb, truthy, hrep, hbal, hpe, hp64, hse, hs64,
      hre, hpk2]

set_option maxRecDepth 100000 in
/-- C2 witness: an open-shape descriptor (no previousBlock, a
sourceBlock, no recipient) over the Banano configuration. -/
theorem processBlockData_shape_iff_witness :
    decodeAddress dummyHash5 addrOnes (addressPrefixes testCoin)
        = Except.ok (some (List.replicate 32 0)) ∧
      containsDigit "7" = true ∧
      ((∃ r, processBlockData dummyHash5 testCoin
          { previousBlock := none, representative := addrOnes, balance := "7",
            sourceBlock := some
              "0000000000000000000000000000000000000000000000000000000000000000",
            recipient := none }
          = Except.ok r) ↔
        ((none : Option String).isSome = false
            ∧ (some "0000000000000000000000000000000000000000000000000000000000000000"
                : Option String).isSome = true
            ∧ (none : Option String).isSome = false) ∨
          ((none : Option String).isSome = true
            ∧ (some "0000000000000000000000000000000000000000000000000000000000000000"
                : Option String).isSome = true
            ∧ (none : Option String).isSome = false) ∨
          ((none : Option String).isSome = true
            ∧ (some "0000000000000000000000000000000000000000000000000000000000000000"
                : Option String).isSome = false
            ∧ (none : Option String).isSome = true) ∨
          ((none : Option String).isSome = true
            ∧ (some "0000000000000000000000000000000000000000000000000000000000000000"
                : Option String).isSome = false
            ∧ (none : Option String).isSome = false)) :=
  ⟨by rfl, by decide,
    processBlockData_shape_iff dummyHash5 testCoin
      { previousBlock := none, representative := addrOnes, balance := "7",
        sourceBlock := some
          "0000000000000000000000000000000000000000000000000000000000000000",
        recipient := none }
      (List.replicate 32 0) (by rfl)
      (fun s h => Option.noConfusion h)
      (fun s h => by rw [Option.some.injEq] at h; subst h; decide)
      (fun s h => Option.noConfusion h)
      (by decide)⟩

/-! ### C1 witness and C6 -/

set_option maxRecDepth 1000000 in
/-- C1 witness: an open block over the Banano configuration with a
three-segment path. -/
theorem sign_cache_payload_layout_witness :
    processBlockData dummyHash5 testCoin openBlockData
        = Except.ok (List.replicate 32 0, none) ∧
      (∃ balHex, encodeBalance openBlockData.balance = Except.ok balHex ∧
        (hexPairs balHex.data).length = 16 ∧
        (prevBytes openBlockData).length = 32 ∧
        (slot2 openBlockData none).length = 32 ∧
        (([44, 165, 0].map be32).flatten).length = 4 * [44, 165, 0].length ∧
        (∃ fr, signBlockRequest dummyHash5 testCoin [44, 165, 0] openBlockData
            = Except.ok fr ∧
          fr.payload = [[44, 165, 0].length] ++ ([44, 165, 0].map be32).flatten
            ++ prevBytes openBlockData ++ slot2 openBlockData none
            ++ List.replicate 32 0 ++ hexPairs balHex.data) ∧
        (∀ sig : String, sig.length = 128 → sig.data.all isHexChar = true →
          ∃ fr, cacheBlockRequest dummyHash5 testCoin [44, 165, 0]
              openBlockData sig = Except.ok fr ∧
            fr.payload = [[44, 165, 0].length]
              ++ ([44, 165, 0].map be32).flatten
              ++ prevBytes openBlockData ++ slot2 openBlockData none
              ++ List.replicate 32 0 ++ hexPairs balHex.data
              ++ hexPairs sig.data)) :=
  ⟨by rfl,
    sign_cache_payload_layout dummyHash5 testCoin [44, 165, 0] openBlockData
      (List.replicate 32 0) none (by rfl) (by simp)
      (fun pk h => Option.noConfusion h)
      (fun s h => Option.noConfusion h)
      (fun s h => by
        injection h with h2
        subst h2
        exact ⟨rfl, by decide⟩)
      (by decide) (by decide) (by decide) (by decide)⟩

/-- C6 (amended): for every signature argument whose length is not 128
(with an otherwise valid descriptor and path), `cacheBlock` raises the
signature validation error synchronously: no frame is built and nothing
reaches the transport. (The characters themselves are not validated —
see the counterexample.) -/
theorem cacheBlock_rejects_bad_signature_length (h5 : List Nat → List Nat)
    (coin : CoinConfig) (bipPath : List Nat) (b : BlockData)
    (repPk : List Nat) (recipOpt : Option (List Nat))
    (hok : processBlockData h5 coin b = Except.ok (repPk, recipOpt))
    (sig : String) (hlen : sig.length ≠ 128) :
    cacheBlockRequest h5 coin bipPath b sig
      = Except.error "`signature` must be a 128 character hex string" := by
  have hb : (sig.length != 128) = true := by simpa using hlen
  simp [cacheBlockRequest, hok, hb]

set_option maxRecDepth 1000000 in
/-- C6 witness: a 2-character signature is rejected with the validation
error before any frame exists. -/
theorem cacheBlock_rejects_bad_signature_length_witness :
    processBlockData dummyHash5 testCoin openBlockData
        = Except.ok (List.replicate 32 0, none) ∧
      ("ab" : String).length ≠ 128 ∧
      cacheBlockRequest dummyHash5 testCoin [44, 165, 0] openBlockData "ab"
        = Except.error "`signature` must be a 128 character hex string" :=
  ⟨by rfl, by decide,
    cacheBlock_rejects_bad_signature_length dummyHash5 testCoin [44, 165, 0]
      openBlockData (List.replicate 32 0) none (by rfl) "ab" (by decide)⟩

set_option maxRecDepth 1000000 in
/-- C6 counterexample: a 128-character signature made of the non-hex
character `'z'` is not "exactly 128 hexadecimal characters", yet
`cacheBlock` does not raise a validation error: only the length is
checked, so the Cache frame is built (its signature slot left
zero-filled, since the hex decode of `"zz…z"` writes no bytes) and
handed to the transport. -/
theorem cacheBlock_accepts_nonhex_signature :
    (cacheBlockRequest dummyHash5 testCoin [44, 165, 0] openBlockData
        zSig128).isOk = true := by
  rfl

/-! ### C7, C8, C10: app configuration and session identity -/

/-- C8: `getAppConfiguration` parses three one-byte version components;
when further bytes follow, the coin name is read as a one-byte length
prefix followed by that many ASCII bytes; when the response is exactly
three bytes and the version is exactly 1.0.0, the coin name is the
implicit legacy name "Nano". -/
theorem parseAppConfiguration_spec (buf : List Nat) (h3 : 3 ≤ buf.length) :
    ∃ cfg, parseAppConfiguration buf = Except.ok cfg ∧
      cfg.version = Nat.repr (buf.getD 0 0) ++ "." ++ Nat.repr (buf.getD 1 0)
        ++ "." ++ Nat.repr (buf.getD 2 0) ∧
      (∀ n, 3 < buf.length → buf.getD 3 0 = n → 4 + n ≤ buf.length →
        cfg.coinName = asciiDecode ((buf.drop 4).take n) ∧
          ((buf.drop 4).take n).length = n) ∧
      (buf.length = 3 → buf.getD 0 0 = 1 → buf.getD 1 0 = 0 →
        buf.getD 2 0 = 0 → cfg.coinName = "Nano") := by
  unfold parseAppConfiguration
  rw [if_neg (by omega)]
  refine ⟨_, rfl, rfl, ?_, ?_⟩
  · intro n hlt hn hle
    constructor
    · simp only [hlt, if_pos, hn]
    · simp only [List.length_take, List.length_drop]
      omega
  · intro hl h0 h1 h2
    have hno : ¬ 3 < buf.length := by omega
    show (if 3 < buf.length then
        asciiDecode ((buf.drop 4).take (buf.getD 3 0))
      else if buf.getD 0 0 = 1 ∧ buf.getD 1 0 = 0 ∧ buf.getD 2 0 = 0 then
        "Nano" else "") = "Nano"
    rw [if_neg hno, if_pos ⟨h0, h1, h2⟩]

/-- C8 witness: a response `[1, 2, 3]` followed by a 2-byte name "Hi",
and the legacy case at `[1, 0, 0]`. -/
theorem parseAppConfiguration_spec_witness :
    (3 ≤ ([1, 2, 3, 2, 72, 105] : List Nat).length) ∧
      (∃ cfg, parseAppConfiguration [1, 2, 3, 2, 72, 105] = Except.ok cfg ∧
        cfg.version = Nat.repr (([1, 2, 3, 2, 72, 105] : List Nat).getD 0 0)
          ++ "." ++ Nat.repr (([1, 2, 3, 2, 72, 105] : List Nat).getD 1 0)
          ++ "." ++ Nat.repr (([1, 2, 3, 2, 72, 105] : List Nat).getD 2 0) ∧
        (∀ n, 3 < ([1, 2, 3, 2, 72, 105] : List Nat).length →
          ([1, 2, 3, 2, 72, 105] : List Nat).getD 3 0 = n →
          4 + n ≤ ([1, 2, 3, 2, 72, 105] : List Nat).length →
          cfg.coinName
              = asciiDecode ((([1, 2, 3, 2, 72, 105] : List Nat).drop 4).take n) ∧
            ((([1, 2, 3, 2, 72, 105] : List Nat).drop 4).take n).length = n) ∧
        (([1, 2, 3, 2, 72, 105] : List Nat).length = 3 →
          ([1, 2, 3, 2, 72, 105] : List Nat).getD 0 0 = 1 →
          ([1, 2, 3, 2, 72, 105] : List Nat).getD 1 0 = 0 →
          ([1, 2, 3, 2, 72, 105] : List Nat).getD 2 0 = 0 →
          cfg.coinName = "Nano")) :=
  ⟨by decide, parseAppConfiguration_spec [1, 2, 3, 2, 72, 105] (by decide)⟩

/-- C7: `assertCorrectCoin` is a no-op on a fresh session; after a
`getAppConfiguration` call whose response parsed to coin name `c`, it
throws exactly when `c` differs from the configured coin's name; in
general, it throws exactly when a recorded AppIdentity exists and
differs from the configured coin's name. -/
theorem assertCorrectCoin_spec (coin : CoinConfig) (api api2 : BaseAPI)
    (buf : List Nat) (cfg : AppConfig)
    (hcall : sessionGetAppConfiguration api buf = Except.ok (api2, cfg)) :
    assertCorrectCoin (mkBaseAPI coin) = Except.ok () ∧
      ((∃ e, assertCorrectCoin api2 = Except.error e) ↔
        cfg.coinName ≠ api.coin.coinName) ∧
      (∀ a : BaseAPI, (∃ e, assertCorrectCoin a = Except.error e) ↔
        ∃ s, a.appCoin = some s ∧ s ≠ a.coin.coinName) := by
  have hgen : ∀ a : BaseAPI, (∃ e, assertCorrectCoin a = Except.error e) ↔
      ∃ s, a.appCoin = some s ∧ s ≠ a.coin.coinName := by
    intro a
    cases ha : a.appCoin with
    | none => simp [assertCorrectCoin, ha]
    | some s =>
      by_cases hne : s ≠ a.coin.coinName
      · simp [assertCorrectCoin, ha, hne]
      · simp [assertCorrectCoin, ha, hne]
  have hapi2 : api2 = { api with appCoin := some cfg.coinName } := by
    unfold sessionGetAppConfiguration at hcall
    cases hp : parseAppConfiguration buf with
    | error e => rw [hp] at hcall; exact Except.noConfusion hcall
    | ok c =>
      rw [hp] at hcall
      have heq := Except.ok.inj hcall
      obtain ⟨ha, hc⟩ := Prod.mk.inj heq
      rw [← ha, hc]
  refine ⟨rfl, ?_, hgen⟩
  rw [hgen api2, hapi2]
  simp

set_option maxRecDepth 100000 in
/-- C7 witness: a fresh Banano session receiving a legacy `[1, 0, 0]`
response (parsed coin name "Nano"). -/
theorem assertCorrectCoin_spec_witness :
    sessionGetAppConfiguration (mkBaseAPI testCoin) [1, 0, 0]
        = Except.ok ({ coin := testCoin, appCoin := some "Nano" },
          { version := "1.0.0", coinName := "Nano" }) ∧
      (assertCorrectCoin (mkBaseAPI testCoin) = Except.ok () ∧
        ((∃ e, assertCorrectCoin
            { coin := testCoin, appCoin := some "Nano" } = Except.error e) ↔
          ({ version := "1.0.0", coinName := "Nano" } : AppConfig).coinName
            ≠ (mkBaseAPI testCoin).coin.coinName) ∧
        (∀ a : BaseAPI, (∃ e, assertCorrectCoin a = Except.error e) ↔
          ∃ s, a.appCoin = some s ∧ s ≠ a.coin.coinName)) :=
  ⟨by rfl,
    assertCorrectCoin_spec testCoin (mkBaseAPI testCoin)
      { coin := testCoin, appCoin := some "Nano" } [1, 0, 0]
      { version := "1.0.0", coinName := "Nano" } (by rfl)⟩

/-- C10: a three-byte response whose version is not exactly 1.0.0
records the empty string as the session's AppIdentity; from then on,
whenever the configured coin name is nonempty, `assertCorrectCoin`
throws the wrong-app error. -/
theorem empty_appcoin_blocks_session (api api2 : BaseAPI) (buf : List Nat)
    (cfg : AppConfig) (h3 : buf.length = 3)
    (hver : ¬ (buf.getD 0 0 = 1 ∧ buf.getD 1 0 = 0 ∧ buf.getD 2 0 = 0))
    (hcall : sessionGetAppConfiguration api buf = Except.ok (api2, cfg)) :
    cfg.coinName = "" ∧ api2.appCoin = some "" ∧
      (api2.coin.coinName ≠ "" →
        ∃ e, assertCorrectCoin api2 = Except.error e) := by
  have hparse : parseAppConfiguration buf
      = Except.ok
        { version := (Nat.repr (buf.getD 0 0) ++ "." ++ Nat.repr (buf.getD 1 0)
            ++ "." ++ Nat.repr (buf.getD 2 0)),
          coinName := "" } := by
    have hno : ¬ 3 < buf.length := by omega
    simp only [parseAppConfiguration]
    rw [if_neg (show ¬ buf.length < 3 by omega), if_neg hno, if_neg hver]
  have hc : cfg.coinName = "" ∧ api2 = { api with appCoin := some "" } := by
    unfold sessionGetAppConfiguration at hcall
    rw [hparse] at hcall
    have := Except.ok.inj hcall
    obtain ⟨ha, hcfg⟩ := Prod.mk.inj this
    constructor
    · rw [← hcfg]
    · rw [← ha]
  obtain ⟨hcn, hapi2⟩ := hc
  refine ⟨hcn, by rw [hapi2], ?_⟩
  intro hne
  rw [hapi2] at hne ⊢
  have hne2 : ("" : String) ≠ api.coin.coinName := fun h => hne h.symm
  refine ⟨"Expected " ++ api.coin.coinName ++ " app to be open, "
    ++ "found " ++ "" ++ " app open instead", ?_⟩
  simp only [assertCorrectCoin]
  rw [if_pos hne2]

set_option maxRecDepth 100000 in
/-- C10 witness: the response `[1, 0, 1]` (version 1.0.1, no name
bytes) on a Banano session. -/
theorem empty_appcoin_blocks_session_witness :
    ([1, 0, 1] : List Nat).length = 3 ∧
      ¬ (([1, 0, 1] : List Nat).getD 0 0 = 1
        ∧ ([1, 0, 1] : List Nat).getD 1 0 = 0
        ∧ ([1, 0, 1] : List Nat).getD 2 0 = 0) ∧
      (({ version := "1.0.1", coinName := "" } : AppConfig).coinName = "" ∧
        ({ coin := testCoin, appCoin := some "" } : BaseAPI).appCoin
          = some "" ∧
        (({ coin := testCoin, appCoin := some "" } : BaseAPI).coin.coinName
            ≠ "" →
          ∃ e, assertCorrectCoin { coin := testCoin, appCoin := some "" }
            = Except.error e)) :=
  ⟨by decide, by decide,
    empty_appcoin_blocks_session (mkBaseAPI testCoin)
      { coin := testCoin, appCoin := some "" } [1, 0, 1]
      { version := "1.0.1", coinName := "" } (by decide) (by decide) (by rfl)⟩

end HwAppNano
